import Mathlib

/-!
Shallow embedding of uLog (src/ulog.c, src/ulog.h, src/ulog_config.h): a
fixed-capacity subscriber registry, a shared bounded scratch message buffer,
a quiet flag and an optional lock hook.  Function pointers are modelled as
`Option Nat` identities (`none` is the C `NULL`); severities and thresholds
are the underlying integers of `ulog_level_t`.  Each state-mutating entry
point returns its result code, the new state, and the trace of externally
visible events (lock-hook calls and subscriber invocations) in the order the
C code performs them.
-/

namespace Ulog

/-- Constant `ULOG_MAX_SUBSCRIBERS` from ulog_config.h. -/
def ULOG_MAX_SUBSCRIBERS : Nat := 6

/-- Constant `ULOG_MAX_MESSAGE_LENGTH` from ulog_config.h. -/
def ULOG_MAX_MESSAGE_LENGTH : Nat := 128

/-- A callback identity (a C function pointer); `Option.none` models `NULL`. -/
abbrev Callback := Nat

/-- Result codes `ulog_err_t` from ulog.h. -/
inductive ulog_err_t where
  | ULOG_ERR_NONE
  | ULOG_ERR_SUBSCRIBERS_EXCEEDED
  | ULOG_ERR_NOT_SUBSCRIBED
deriving DecidableEq, Repr

export ulog_err_t (ULOG_ERR_NONE ULOG_ERR_SUBSCRIBERS_EXCEEDED ULOG_ERR_NOT_SUBSCRIBED)

/-- Registry slot `subscriber_t` from ulog.c: a callback pointer and a
severity threshold. -/
structure subscriber_t where
  fn : Option Callback
  threshold : Nat
deriving DecidableEq, Repr

/-- The static `ulog_config` struct from ulog.c (the process-wide state). -/
structure UlogState where
  subscribers : List subscriber_t
  msg : List Char
  quite : Bool
  lock_fn : Option Nat
deriving DecidableEq, Repr

/-- Externally visible events: a call of the installed lock hook with its
boolean argument, and a subscriber invocation with the arguments the C code
passes (`severity, file, line, msg`). -/
inductive Event where
  | hook (b : Bool)
  | invoke (fn : Callback) (severity : Nat) (file : String) (line : Int) (msg : List Char)
deriving DecidableEq, Repr

/-- The `lock` helper of ulog.c: calls the hook iff one is installed. -/
def lock (s : UlogState) (b : Bool) : List Event :=
  match s.lock_fn with
  | some _ => [Event.hook b]
  | none => []

/-- The NUL character (`memset` fill and string terminator). -/
def NUL : Char := Char.ofNat 0

/-- Function `ulog_init` from ulog.c: zero all slots and the message buffer,
clear the quiet flag and the lock hook. -/
def ulog_init : UlogState :=
  { subscribers := List.replicate ULOG_MAX_SUBSCRIBERS { fn := none, threshold := 0 },
    msg := List.replicate ULOG_MAX_MESSAGE_LENGTH NUL,
    quite := false,
    lock_fn := none }

/-- The scan loop of `ulog_subscribe` (ulog.c lines 84-95).  Walks the table
at position `i` carrying the running `available_slot` value `avail`; returns
`(some subs, _)` on the early-return path (a slot with `.fn == fn` was found
and its threshold updated in place) and `(none, avail)` when the loop ran to
completion, `avail` being the final `available_slot` value. -/
def subscribeScan (fn : Option Callback) (threshold : Nat) :
    Nat → Option Nat → List subscriber_t → Option (List subscriber_t) × Option Nat
  | _, avail, [] => (none, avail)
  | i, avail, sub :: rest =>
    if sub.fn = fn then
      (some ({ sub with threshold := threshold } :: rest), avail)
    else
      ((subscribeScan fn threshold (i + 1)
          (if sub.fn = none then some i else avail) rest).1.map
        (fun rest2 => sub :: rest2),
       (subscribeScan fn threshold (i + 1)
          (if sub.fn = none then some i else avail) rest).2)

/-- Function `ulog_subscribe` from ulog.c: scan for `fn`, updating the threshold in
place on a match; otherwise install `fn` at the final `available_slot`, or
fail with `ULOG_ERR_SUBSCRIBERS_EXCEEDED` when none was found. -/
def ulog_subscribe (s : UlogState) (fn : Option Callback) (threshold : Nat) :
    ulog_err_t × UlogState × List Event :=
  match subscribeScan fn threshold 0 none s.subscribers with
  | (some subs2, _) =>
      (ULOG_ERR_NONE, { s with subscribers := subs2 }, lock s true ++ lock s false)
  | (none, none) =>
      (ULOG_ERR_SUBSCRIBERS_EXCEEDED, s, lock s true ++ lock s false)
  | (none, some a) =>
      (ULOG_ERR_NONE,
       { s with subscribers := s.subscribers.set a { fn := fn, threshold := threshold } },
       lock s true ++ lock s false)

/-- The scan loop of `ulog_unsubscribe` (ulog.c lines 111-117): clear the
`fn` field of the first slot whose `.fn` equals `fn` and stop; `none` when no
slot matches. -/
def unsubscribeScan (fn : Option Callback) : List subscriber_t → Option (List subscriber_t)
  | [] => none
  | sub :: rest =>
    if sub.fn = fn then some ({ sub with fn := none } :: rest)
    else (unsubscribeScan fn rest).map (fun r => sub :: r)

/-- Function `ulog_unsubscribe` from ulog.c. -/
def ulog_unsubscribe (s : UlogState) (fn : Option Callback) :
    ulog_err_t × UlogState × List Event :=
  match unsubscribeScan fn s.subscribers with
  | some subs2 =>
      (ULOG_ERR_NONE, { s with subscribers := subs2 }, lock s true ++ lock s false)
  | none =>
      (ULOG_ERR_NOT_SUBSCRIBED, s, lock s true ++ lock s false)

/-- Function `ulog_set_lock` from ulog.c. -/
def ulog_set_lock (s : UlogState) (lock_fn : Option Nat) : UlogState :=
  { s with lock_fn := lock_fn }

/-- Function `ulog_set_quite` from ulog.c. -/
def ulog_set_quite (s : UlogState) (b : Bool) : UlogState :=
  { s with quite := b }

/-- Modelled from the C library contract of `vsnprintf` as called at
ulog.c line 149 (the libc formatter is not part of this repository): with
buffer size `n`, write `min (expansion.length) (n - 1)` characters of the
full expansion followed by a NUL terminator, leaving any bytes of the buffer
beyond the written region untouched; with `n = 0` write nothing.  The
printf-style template and its arguments are abstracted by `expansion`, the
text they would format to with unbounded space. -/
def vsnprintf (buf : List Char) (n : Nat) (expansion : List Char) : List Char :=
  if n = 0 then buf
  else
    expansion.take (min expansion.length (n - 1)) ++ [NUL] ++
      buf.drop (min expansion.length (n - 1) + 1)

/-- The fan-out loop of `ulog_message` (ulog.c lines 152-158): for each slot
in index order, if occupied and `severity >= threshold`, invoke the callback
with the shared buffer. -/
def dispatchLoop (severity : Nat) (file : String) (line : Int) (msg : List Char) :
    List subscriber_t → List Event
  | [] => []
  | sub :: rest =>
    match sub.fn with
    | none => dispatchLoop severity file line msg rest
    | some f =>
      if sub.threshold ≤ severity then
        Event.invoke f severity file line msg :: dispatchLoop severity file line msg rest
      else
        dispatchLoop severity file line msg rest

/-- Function `ulog_message` from ulog.c: return immediately when quiet; otherwise
format into the shared buffer under the lock and fan out to qualifying
subscribers in slot order. -/
def ulog_message (s : UlogState) (severity : Nat) (file : String) (line : Int)
    (expansion : List Char) : UlogState × List Event :=
  if s.quite then (s, [])
  else
    ({ s with msg := vsnprintf s.msg ULOG_MAX_MESSAGE_LENGTH expansion },
     lock s true ++
       dispatchLoop severity file line
         (vsnprintf s.msg ULOG_MAX_MESSAGE_LENGTH expansion) s.subscribers ++
       lock s false)

/-- Ghost function describing the final value of the `available_slot`
variable of `ulog_subscribe` when the scan runs to completion: starting at
position `i` with running value `avail`, it is overwritten by each free
slot's index in turn, so it ends as the index of the last free slot. -/
def lastFreeFrom : Nat → Option Nat → List subscriber_t → Option Nat
  | _, avail, [] => avail
  | i, avail, sub :: rest =>
    lastFreeFrom (i + 1) (if sub.fn = none then some i else avail) rest

/-- Whether an event is a subscriber invocation. -/
def isInvoke : Event → Bool
  | Event.invoke _ _ _ _ _ => true
  | Event.hook _ => false

/-- Whether an event is a lock-hook call. -/
def isHook : Event → Bool
  | Event.invoke _ _ _ _ _ => false
  | Event.hook _ => true

/-- The callbacks invoked by a trace, in invocation order. -/
def invokedCallbacks (tr : List Event) : List Callback :=
  tr.filterMap fun e =>
    match e with
    | Event.invoke f _ _ _ _ => some f
    | Event.hook _ => none

/-- The registry invariant: at most one occupied slot per distinct non-null
callback identity. -/
def UniqueOccupied (subs : List subscriber_t) : Prop :=
  ∀ c : Callback, (subs.map subscriber_t.fn).count (some c) ≤ 1

/-- A registry-mutating operation (a `ulog_subscribe` or `ulog_unsubscribe`
call). -/
inductive Op where
  | sub (fn : Option Callback) (threshold : Nat)
  | unsub (fn : Option Callback)

/-- The state reached after one operation. -/
def applyOp (s : UlogState) : Op → UlogState
  | Op.sub fn threshold => (ulog_subscribe s fn threshold).2.1
  | Op.unsub fn => (ulog_unsubscribe s fn).2.1

/-- The state reached from the freshly-zeroed state by a sequence of
subscribe/unsubscribe operations. -/
def runOps (ops : List Op) : UlogState :=
  ops.foldl applyOp ulog_init

/-- A concrete state whose six slots are all occupied, for witnesses. -/
def sampleFullState : UlogState :=
  { subscribers := [{ fn := some 1, threshold := 0 }, { fn := some 2, threshold := 1 },
      { fn := some 3, threshold := 2 }, { fn := some 4, threshold := 3 },
      { fn := some 5, threshold := 4 }, { fn := some 6, threshold := 5 }],
    msg := [],
    quite := false,
    lock_fn := none }

/-- A concrete state with occupied slots 0, 2, 5, free slots 1, 3, 4, and a
lock hook installed, for witnesses. -/
def sampleState : UlogState :=
  { subscribers := [{ fn := some 1, threshold := 2 }, { fn := none, threshold := 0 },
      { fn := some 2, threshold := 5 }, { fn := none, threshold := 0 },
      { fn := none, threshold := 0 }, { fn := some 3, threshold := 0 }],
    msg := [],
    quite := false,
    lock_fn := some 0 }

/-- When the subscribe scan takes its early-return path, it has updated the
threshold of the first slot whose callback equals `fn`, in place. -/
theorem subscribeScan_some (fn : Option Callback) (th : Nat) :
    ∀ (subs : List subscriber_t) (i : Nat) (avail : Option Nat)
      (subs2 : List subscriber_t) (a : Option Nat),
      subscribeScan fn th i avail subs = (some subs2, a) →
      ∃ k, ∃ hk : k < subs.length,
        (subs.get ⟨k, hk⟩).fn = fn ∧
        (∀ m, (hm : m < subs.length) → m < k → (subs.get ⟨m, hm⟩).fn ≠ fn) ∧
        subs2 = subs.set k { fn := fn, threshold := th } := by
  intro subs
  induction subs with
  | nil =>
    intro i avail subs2 a h
    simp [subscribeScan] at h
  | cons sub rest ih =>
    intro i avail subs2 a h
    rw [subscribeScan] at h
    by_cases hfn : sub.fn = fn
    · rw [if_pos hfn, Prod.mk.injEq] at h
      obtain ⟨h1, h2⟩ := h
      refine ⟨0, Nat.succ_pos _, hfn, ?_, ?_⟩
      · intro m hm hm0
        omega
      · have hsub : ({ sub with threshold := th } : subscriber_t) =
            { fn := fn, threshold := th } := by
          cases sub
          simp only at hfn
          simp [hfn]
        rw [← Option.some_inj.mp h1, hsub]
        rfl
    · rw [if_neg hfn, Prod.mk.injEq] at h
      obtain ⟨h1, h2⟩ := h
      obtain ⟨rest2, hr1, hr2⟩ := Option.map_eq_some'.mp h1
      have heq : subscribeScan fn th (i + 1)
          (if sub.fn = none then some i else avail) rest =
          (some rest2,
           (subscribeScan fn th (i + 1)
             (if sub.fn = none then some i else avail) rest).2) := by
        rw [← hr1]
      obtain ⟨k, hk, hget, hpre, hset⟩ := ih (i + 1)
        (if sub.fn = none then some i else avail) rest2 _ heq
      refine ⟨k + 1, Nat.succ_lt_succ hk, ?_, ?_, ?_⟩
      · simpa using hget
      · intro m hm hmk
        cases m with
        | zero => simpa using hfn
        | succ m =>
          have hm2 : m < rest.length := Nat.lt_of_succ_lt_succ hm
          have := hpre m hm2 (Nat.lt_of_succ_lt_succ hmk)
          simpa using this
      · rw [← hr2, hset]
        rfl

/-- When the subscribe scan runs to completion, no slot's callback equals
`fn`, and the returned value is the final `available_slot`. -/
theorem subscribeScan_none (fn : Option Callback) (th : Nat) :
    ∀ (subs : List subscriber_t) (i : Nat) (avail : Option Nat) (a : Option Nat),
      subscribeScan fn th i avail subs = (none, a) →
      (∀ sub ∈ subs, sub.fn ≠ fn) ∧ a = lastFreeFrom i avail subs := by
  intro subs
  induction subs with
  | nil =>
    intro i avail a h
    simp [subscribeScan] at h
    simp [lastFreeFrom, h]
  | cons sub rest ih =>
    intro i avail a h
    rw [subscribeScan] at h
    by_cases hfn : sub.fn = fn
    · rw [if_pos hfn] at h
      simp at h
    · rw [if_neg hfn, Prod.mk.injEq] at h
      obtain ⟨h1, h2⟩ := h
      rw [Option.map_eq_none'] at h1
      have heq : subscribeScan fn th (i + 1)
          (if sub.fn = none then some i else avail) rest =
          (none,
           (subscribeScan fn th (i + 1)
             (if sub.fn = none then some i else avail) rest).2) := by
        rw [← h1]
      obtain ⟨hall, hlast⟩ := ih (i + 1) (if sub.fn = none then some i else avail) _ heq
      constructor
      · intro x hx
        rcases List.mem_cons.mp hx with hx | hx
        · rw [hx]; exact hfn
        · exact hall x hx
      · rw [← h2, hlast, lastFreeFrom]

/-- With every slot occupied, the `available_slot` variable is never
written. -/
theorem lastFreeFrom_of_full :
    ∀ (subs : List subscriber_t) (i : Nat),
      (∀ sub ∈ subs, sub.fn ≠ none) → lastFreeFrom i none subs = none := by
  intro subs
  induction subs with
  | nil => intro i h; rfl
  | cons sub rest ih =>
    intro i h
    rw [lastFreeFrom, if_neg (h sub (List.mem_cons_self sub rest))]
    exact ih (i + 1) fun x hx => h x (List.mem_cons_of_mem sub hx)

/-- Once the `available_slot` variable holds an index, it holds one for the
rest of the scan. -/
theorem lastFreeFrom_of_some :
    ∀ (subs : List subscriber_t) (i j : Nat),
      ∃ j2, lastFreeFrom i (some j) subs = some j2 := by
  intro subs
  induction subs with
  | nil => intro i j; exact ⟨j, rfl⟩
  | cons sub rest ih =>
    intro i j
    rw [lastFreeFrom]
    by_cases hfree : sub.fn = none
    · rw [if_pos hfree]; exact ih (i + 1) i
    · rw [if_neg hfree]; exact ih (i + 1) j

/-- With a free slot present, the scan ends with some `available_slot`. -/
theorem lastFreeFrom_of_free :
    ∀ (subs : List subscriber_t) (i : Nat) (avail : Option Nat),
      (∃ sub ∈ subs, sub.fn = none) → ∃ j, lastFreeFrom i avail subs = some j := by
  intro subs
  induction subs with
  | nil =>
    intro i avail h
    obtain ⟨x, hx, _⟩ := h
    exact absurd hx (List.not_mem_nil x)
  | cons sub rest ih =>
    intro i avail h
    rw [lastFreeFrom]
    by_cases hfree : sub.fn = none
    · rw [if_pos hfree]
      exact lastFreeFrom_of_some rest (i + 1) i
    · rw [if_neg hfree]
      obtain ⟨x, hx, hxfree⟩ := h
      rcases List.mem_cons.mp hx with hx | hx
      · exact absurd (hx ▸ hxfree) hfree
      · exact ih (i + 1) avail ⟨x, hx, hxfree⟩

/-- Characterization of the final `available_slot`: it is either `i` plus
the position of the last free slot of the remaining table, or the incoming
value when no slot of the remaining table is free. -/
theorem lastFreeFrom_spec :
    ∀ (subs : List subscriber_t) (i : Nat) (avail : Option Nat) (j : Nat),
      lastFreeFrom i avail subs = some j →
      (∃ p, ∃ hp : p < subs.length, j = i + p ∧ (subs.get ⟨p, hp⟩).fn = none ∧
        ∀ q, (hq : q < subs.length) → p < q → (subs.get ⟨q, hq⟩).fn ≠ none)
      ∨ (avail = some j ∧ ∀ sub ∈ subs, sub.fn ≠ none) := by
  intro subs
  induction subs with
  | nil =>
    intro i avail j h
    right
    exact ⟨h, fun x hx => absurd hx (List.not_mem_nil x)⟩
  | cons sub rest ih =>
    intro i avail j h
    rw [lastFreeFrom] at h
    rcases ih (i + 1) (if sub.fn = none then some i else avail) j h with
      ⟨p, hp, hj, hfree, hocc⟩ | ⟨havail, hall⟩
    · left
      refine ⟨p + 1, Nat.succ_lt_succ hp, by omega, by simpa using hfree, ?_⟩
      intro q hq hpq
      cases q with
      | zero => omega
      | succ q =>
        have hq2 : q < rest.length := Nat.lt_of_succ_lt_succ hq
        have := hocc q hq2 (Nat.lt_of_succ_lt_succ hpq)
        simpa using this
    · by_cases hfree : sub.fn = none
      · rw [if_pos hfree] at havail
        have hij : i = j := Option.some_inj.mp havail
        left
        refine ⟨0, Nat.succ_pos _, by omega, hfree, ?_⟩
        intro q hq hq0
        cases q with
        | zero => omega
        | succ q =>
          have hq2 : q < rest.length := Nat.lt_of_succ_lt_succ hq
          have := hall (rest.get ⟨q, hq2⟩) (List.get_mem rest q hq2)
          simpa using this
      · rw [if_neg hfree] at havail
        right
        refine ⟨havail, ?_⟩
        intro x hx
        rcases List.mem_cons.mp hx with hx | hx
        · rw [hx]; exact hfree
        · exact hall x hx

/-- When the unsubscribe scan finds a match, it clears the `fn` field of the
first matching slot and stops. -/
theorem unsubscribeScan_some (fn : Option Callback) :
    ∀ (subs subs2 : List subscriber_t),
      unsubscribeScan fn subs = some subs2 →
      ∃ k, ∃ hk : k < subs.length,
        (subs.get ⟨k, hk⟩).fn = fn ∧
        (∀ m, (hm : m < subs.length) → m < k → (subs.get ⟨m, hm⟩).fn ≠ fn) ∧
        subs2 = subs.set k { fn := none, threshold := (subs.get ⟨k, hk⟩).threshold } := by
  intro subs
  induction subs with
  | nil =>
    intro subs2 h
    simp [unsubscribeScan] at h
  | cons sub rest ih =>
    intro subs2 h
    rw [unsubscribeScan] at h
    by_cases hfn : sub.fn = fn
    · rw [if_pos hfn, Option.some_inj] at h
      refine ⟨0, Nat.succ_pos _, hfn, fun m hm hm0 => by omega, ?_⟩
      rw [← h]
      cases sub
      rfl
    · rw [if_neg hfn] at h
      obtain ⟨rest2, hr1, hr2⟩ := Option.map_eq_some'.mp h
      obtain ⟨k, hk, hget, hpre, hset⟩ := ih rest2 hr1
      refine ⟨k + 1, Nat.succ_lt_succ hk, by simpa using hget, ?_, ?_⟩
      · intro m hm hmk
        cases m with
        | zero => simpa using hfn
        | succ m =>
          have hm2 : m < rest.length := Nat.lt_of_succ_lt_succ hm
          have := hpre m hm2 (Nat.lt_of_succ_lt_succ hmk)
          simpa using this
      · rw [← hr2, hset]
        rfl

/-- When the unsubscribe scan finds no match, no slot's callback equals
`fn`. -/
theorem unsubscribeScan_none (fn : Option Callback) :
    ∀ (subs : List subscriber_t),
      unsubscribeScan fn subs = none → ∀ sub ∈ subs, sub.fn ≠ fn := by
  intro subs
  induction subs with
  | nil =>
    intro _ x hx
    exact absurd hx (List.not_mem_nil x)
  | cons sub rest ih =>
    intro h x hx
    rw [unsubscribeScan] at h
    by_cases hfn : sub.fn = fn
    · rw [if_pos hfn] at h
      exact absurd h (by simp)
    · rw [if_neg hfn, Option.map_eq_none'] at h
      rcases List.mem_cons.mp hx with hx | hx
      · rw [hx]; exact hfn
      · exact ih h x hx

/-- The fan-out loop produces, in slot order, one invocation per occupied
slot whose threshold is at most the severity, all carrying the same message
buffer. -/
theorem dispatchLoop_eq (severity : Nat) (file : String) (line : Int) (msg : List Char) :
    ∀ subs : List subscriber_t,
      dispatchLoop severity file line msg subs =
        (subs.filter fun sub => sub.fn.isSome && decide (sub.threshold ≤ severity)).map
          fun sub => Event.invoke (sub.fn.getD 0) severity file line msg := by
  intro subs
  induction subs with
  | nil => rfl
  | cons sub rest ih =>
    rw [dispatchLoop]
    cases hfn : sub.fn with
    | none => simp [List.filter_cons, hfn, ih]
    | some f =>
      by_cases hth : sub.threshold ≤ severity
      · simp [List.filter_cons, hfn, hth, ih]
      · simp [List.filter_cons, hfn, hth, ih]

/-- Writing a slot back with the value it already holds leaves the list
unchanged. -/
theorem set_get_self {α : Type} :
    ∀ (l : List α) (k : Nat) (hk : k < l.length), l.set k (l.get ⟨k, hk⟩) = l := by
  intro l
  induction l with
  | nil => intro k hk; exact absurd hk (by simp)
  | cons b rest ih =>
    intro k hk
    cases k with
    | zero => rfl
    | succ k => simpa using ih k (Nat.lt_of_succ_lt_succ hk)

/-- Effect of a single-slot write on element counts, stated additively. -/
theorem count_set :
    ∀ (l : List (Option Callback)) (a : Nat) (v x : Option Callback) (ha : a < l.length),
      (l.set a v).count x + (if l.get ⟨a, ha⟩ = x then 1 else 0) =
        l.count x + (if v = x then 1 else 0) := by
  intro l
  induction l with
  | nil => intro a v x ha; exact absurd ha (by simp)
  | cons b rest ih =>
    intro a v x ha
    cases a with
    | zero =>
      simp only [List.set, List.get, List.count_cons]
      by_cases hbx : b = x <;> by_cases hvx : v = x <;>
        simp [hbx, hvx]
    | succ a =>
      have ha2 : a < rest.length := Nat.lt_of_succ_lt_succ ha
      have h2 := ih a v x ha2
      simp only [List.get_eq_getElem] at h2
      simp only [List.set, List.get_eq_getElem, List.getElem_cons_succ, List.count_cons]
      by_cases hbx : b = x <;> simp [hbx] <;> omega

/-- The freshly-zeroed registry satisfies the uniqueness invariant. -/
theorem uniqueOccupied_init : UniqueOccupied ulog_init.subscribers := by
  intro c
  simp [ulog_init, ULOG_MAX_SUBSCRIBERS, List.count_replicate]

/-- A subscribe call preserves the uniqueness invariant. -/
theorem uniqueOccupied_subscribe (s : UlogState) (fn : Option Callback) (th : Nat)
    (h : UniqueOccupied s.subscribers) :
    UniqueOccupied (ulog_subscribe s fn th).2.1.subscribers := by
  rcases hscan : subscribeScan fn th 0 none s.subscribers with ⟨o, a⟩
  cases o with
  | some subs2 =>
    obtain ⟨k, hk, hget, hpre, hset⟩ :=
      subscribeScan_some fn th s.subscribers 0 none subs2 a hscan
    have hres : (ulog_subscribe s fn th).2.1.subscribers = subs2 := by
      rw [ulog_subscribe, hscan]
    intro c
    rw [hres, hset, List.map_set]
    have hk2 : k < (s.subscribers.map subscriber_t.fn).length := by simpa using hk
    have hmapk : (s.subscribers.map subscriber_t.fn).get ⟨k, hk2⟩ = fn := by
      simpa using hget
    have hid : (s.subscribers.map subscriber_t.fn).set k fn =
        s.subscribers.map subscriber_t.fn := by
      conv_lhs => rw [← hmapk]
      exact set_get_self _ k hk2
    rw [show ({ fn := fn, threshold := th } : subscriber_t).fn = fn from rfl, hid]
    exact h c
  | none =>
    cases a with
    | none =>
      have hres : (ulog_subscribe s fn th).2.1 = s := by
        rw [ulog_subscribe, hscan]
      rw [hres]
      exact h
    | some j =>
      obtain ⟨hall, hlast⟩ := subscribeScan_none fn th s.subscribers 0 none _ hscan
      have hres : (ulog_subscribe s fn th).2.1.subscribers =
          s.subscribers.set j { fn := fn, threshold := th } := by
        rw [ulog_subscribe, hscan]
      rcases lastFreeFrom_spec s.subscribers 0 none j hlast.symm with
        ⟨p, hp, hj, hfree, _⟩ | ⟨hc, _⟩
      · have hjp : j = p := by omega
        subst hjp
        intro c
        rw [hres, List.map_set,
          show ({ fn := fn, threshold := th } : subscriber_t).fn = fn from rfl]
        have hk2 : j < (s.subscribers.map subscriber_t.fn).length := by simpa using hp
        have hmapj : (s.subscribers.map subscriber_t.fn).get ⟨j, hk2⟩ = none := by
          simpa using hfree
        have hcount := count_set (s.subscribers.map subscriber_t.fn) j fn (some c) hk2
        rw [hmapj, if_neg (by simp : ¬ (none : Option Callback) = some c)] at hcount
        by_cases hcfn : fn = some c
        · have hzero : (s.subscribers.map subscriber_t.fn).count (some c) = 0 := by
            rw [List.count_eq_zero]
            intro hmem
            obtain ⟨sub, hsub, hfneq⟩ := List.mem_map.mp hmem
            exact hall sub hsub (hfneq.trans hcfn.symm)
          rw [if_pos hcfn] at hcount
          omega
        · have := h c
          rw [if_neg hcfn] at hcount
          omega
      · exact absurd hc (by simp)

/-- An unsubscribe call preserves the uniqueness invariant. -/
theorem uniqueOccupied_unsubscribe (s : UlogState) (fn : Option Callback)
    (h : UniqueOccupied s.subscribers) :
    UniqueOccupied (ulog_unsubscribe s fn).2.1.subscribers := by
  rcases hscan : unsubscribeScan fn s.subscribers with _ | subs2
  · have hres : (ulog_unsubscribe s fn).2.1 = s := by
      rw [ulog_unsubscribe, hscan]
    rw [hres]
    exact h
  · obtain ⟨k, hk, hget, hpre, hset⟩ := unsubscribeScan_some fn s.subscribers subs2 hscan
    have hres : (ulog_unsubscribe s fn).2.1.subscribers = subs2 := by
      rw [ulog_unsubscribe, hscan]
    intro c
    rw [hres, hset, List.map_set,
      show ({ fn := none,
              threshold := (s.subscribers.get ⟨k, hk⟩).threshold } : subscriber_t).fn =
        none from rfl]
    have hk2 : k < (s.subscribers.map subscriber_t.fn).length := by simpa using hk
    have hcount := count_set (s.subscribers.map subscriber_t.fn) k none (some c) hk2
    rw [if_neg (by simp : ¬ (none : Option Callback) = some c)] at hcount
    have := h c
    omega

/-- Every state reachable by subscribe/unsubscribe operations satisfies the
uniqueness invariant. -/
theorem uniqueOccupied_foldl :
    ∀ (ops : List Op) (s : UlogState), UniqueOccupied s.subscribers →
      UniqueOccupied (ops.foldl applyOp s).subscribers := by
  intro ops
  induction ops with
  | nil => intro s h; exact h
  | cons op rest ih =>
    intro s h
    rw [List.foldl_cons]
    apply ih
    cases op with
    | sub fn th => exact uniqueOccupied_subscribe s fn th h
    | unsub fn => exact uniqueOccupied_unsubscribe s fn h

/-- With no hook installed, the `lock` helper emits nothing. -/
theorem lock_eq_nil (s : UlogState) (b : Bool) (h : s.lock_fn = none) :
    lock s b = [] := by
  simp [lock, h]

/-- With a hook installed, the `lock` helper emits one hook call. -/
theorem lock_eq_hook (s : UlogState) (b : Bool) (h0 : Nat) (h : s.lock_fn = some h0) :
    lock s b = [Event.hook b] := by
  simp [lock, h]

/-- Every `ulog_subscribe` return path emits exactly the lock-enter and
lock-exit events. -/
theorem ulog_subscribe_trace (s : UlogState) (fn : Option Callback) (th : Nat) :
    (ulog_subscribe s fn th).2.2 = lock s true ++ lock s false := by
  rcases hscan : subscribeScan fn th 0 none s.subscribers with ⟨o, a⟩
  cases o with
  | some subs2 => rw [ulog_subscribe, hscan]
  | none =>
    cases a with
    | none => rw [ulog_subscribe, hscan]
    | some j => rw [ulog_subscribe, hscan]

/-- Every `ulog_unsubscribe` return path emits exactly the lock-enter and
lock-exit events. -/
theorem ulog_unsubscribe_trace (s : UlogState) (fn : Option Callback) :
    (ulog_unsubscribe s fn).2.2 = lock s true ++ lock s false := by
  rcases hscan : unsubscribeScan fn s.subscribers with _ | subs2
  · rw [ulog_unsubscribe, hscan]
  · rw [ulog_unsubscribe, hscan]

/-- The fan-out loop emits subscriber invocations only, never hook calls. -/
theorem dispatchLoop_no_hook (severity : Nat) (file : String) (line : Int)
    (msg : List Char) (subs : List subscriber_t) :
    ∀ e ∈ dispatchLoop severity file line msg subs, isHook e = false := by
  intro e he
  rw [dispatchLoop_eq] at he
  obtain ⟨sub, _, hsub⟩ := List.mem_map.mp he
  rw [← hsub]
  rfl

/-- Extracting invoked callbacks distributes over trace concatenation. -/
theorem invokedCallbacks_append (tr1 tr2 : List Event) :
    invokedCallbacks (tr1 ++ tr2) = invokedCallbacks tr1 ++ invokedCallbacks tr2 :=
  List.filterMap_append tr1 tr2 _

/-- Lock events contribute no invoked callbacks. -/
theorem invokedCallbacks_lock (s : UlogState) (b : Bool) :
    invokedCallbacks (lock s b) = [] := by
  cases h : s.lock_fn with
  | none => rw [lock_eq_nil s b h]; rfl
  | some h0 => rw [lock_eq_hook s b h0 h]; rfl

/-- Per-callback invocation counts of the fan-out loop: one invocation per
slot holding that callback with a threshold at most the severity. -/
theorem count_dispatchLoop (severity : Nat) (file : String) (line : Int)
    (msg : List Char) (c : Callback) :
    ∀ subs : List subscriber_t,
      (invokedCallbacks (dispatchLoop severity file line msg subs)).count c =
        subs.countP
          (fun sub => decide (sub.fn = some c) && decide (sub.threshold ≤ severity)) := by
  intro subs
  induction subs with
  | nil => rfl
  | cons sub rest ih =>
    rw [dispatchLoop, List.countP_cons]
    cases hfn : sub.fn with
    | none => simp [hfn, ih]
    | some f =>
      by_cases hth : sub.threshold ≤ severity
      · by_cases hfc : f = c
        · simp [invokedCallbacks, hfn, hth, hfc, List.count_cons,
            ← ih, invokedCallbacks]
        · simp [invokedCallbacks, hfn, hth, hfc, List.count_cons,
            ← ih, invokedCallbacks]
      · simp [hfn, hth, ih]

/-- Lock events are not invocations. -/
theorem filter_isInvoke_lock (s : UlogState) (b : Bool) :
    (lock s b).filter isInvoke = [] := by
  cases h : s.lock_fn with
  | none => rw [lock_eq_nil s b h]; rfl
  | some h0 => rw [lock_eq_hook s b h0 h]; rfl

/-- The fan-out loop's trace consists of invocations only. -/
theorem filter_isInvoke_dispatchLoop (severity : Nat) (file : String) (line : Int)
    (msg : List Char) (subs : List subscriber_t) :
    (dispatchLoop severity file line msg subs).filter isInvoke =
      dispatchLoop severity file line msg subs := by
  rw [List.filter_eq_self]
  intro e he
  rw [dispatchLoop_eq] at he
  obtain ⟨sub, _, hsub⟩ := List.mem_map.mp he
  rw [← hsub]
  rfl

/-- The trace and new state of a non-quiet log call, unfolded. -/
theorem ulog_message_not_quiet (s : UlogState) (severity : Nat) (file : String)
    (line : Int) (expansion : List Char) (hq : s.quite = false) :
    ulog_message s severity file line expansion =
      ({ s with msg := vsnprintf s.msg ULOG_MAX_MESSAGE_LENGTH expansion },
       lock s true ++
         dispatchLoop severity file line
           (vsnprintf s.msg ULOG_MAX_MESSAGE_LENGTH expansion) s.subscribers ++
         lock s false) := by
  rw [ulog_message, if_neg (by simp [hq])]

/-- C6: with the quiet flag set, a log call returns immediately with no side
effects: the state (registry, scratch buffer, flags) is unchanged and no
subscriber or hook is invoked. -/
theorem ulog_message_quiet_noop (s : UlogState) (severity : Nat) (file : String)
    (line : Int) (expansion : List Char) (h : s.quite = true) :
    ulog_message s severity file line expansion = (s, []) := by
  rw [ulog_message, if_pos h]

/-- Witness for C6 at a concrete quiet state. -/
theorem ulog_message_quiet_noop_witness :
    ulog_message (ulog_set_quite ulog_init true) 4 "main.c" 3 ['h', 'i'] =
      (ulog_set_quite ulog_init true, []) :=
  ulog_message_quiet_noop (ulog_set_quite ulog_init true) 4 "main.c" 3 ['h', 'i'] rfl

/-- C4: when every slot is occupied and the callback occupies none of them,
`ulog_subscribe` returns `ULOG_ERR_SUBSCRIBERS_EXCEEDED` and leaves the whole
state unchanged. -/
theorem ulog_subscribe_full_unchanged (s : UlogState) (fn : Option Callback)
    (th : Nat) (hfull : ∀ sub ∈ s.subscribers, sub.fn ≠ none)
    (hnew : ∀ sub ∈ s.subscribers, sub.fn ≠ fn) :
    ulog_subscribe s fn th =
      (ULOG_ERR_SUBSCRIBERS_EXCEEDED, s, lock s true ++ lock s false) := by
  rcases hscan : subscribeScan fn th 0 none s.subscribers with ⟨o, a⟩
  cases o with
  | some subs2 =>
    obtain ⟨k, hk, hget, _, _⟩ :=
      subscribeScan_some fn th s.subscribers 0 none subs2 a hscan
    exact absurd hget (hnew _ (List.get_mem s.subscribers k hk))
  | none =>
    obtain ⟨_, hlast⟩ := subscribeScan_none fn th s.subscribers 0 none a hscan
    rw [lastFreeFrom_of_full s.subscribers 0 hfull] at hlast
    subst hlast
    rw [ulog_subscribe, hscan]

/-- Witness for C4: a full registry of six distinct callbacks rejects a
seventh. -/
theorem ulog_subscribe_full_unchanged_witness :
    ulog_subscribe sampleFullState (some 7) 2 =
      (ULOG_ERR_SUBSCRIBERS_EXCEEDED, sampleFullState,
       lock sampleFullState true ++ lock sampleFullState false) :=
  ulog_subscribe_full_unchanged sampleFullState (some 7) 2 (by decide) (by decide)

/-- C7: a non-quiet log call whose expansion does not fit stores exactly the
first `ULOG_MAX_MESSAGE_LENGTH - 1` characters plus a NUL terminator in the
scratch buffer, and the buffer length (the bound) is preserved. -/
theorem ulog_message_truncation (s : UlogState) (severity : Nat) (file : String)
    (line : Int) (expansion : List Char) (hq : s.quite = false)
    (hlen : s.msg.length = ULOG_MAX_MESSAGE_LENGTH)
    (hbig : ULOG_MAX_MESSAGE_LENGTH ≤ expansion.length) :
    (ulog_message s severity file line expansion).1.msg =
      expansion.take (ULOG_MAX_MESSAGE_LENGTH - 1) ++ [NUL] ∧
    (ulog_message s severity file line expansion).1.msg.length =
      ULOG_MAX_MESSAGE_LENGTH := by
  have hres : (ulog_message s severity file line expansion).1.msg =
      vsnprintf s.msg ULOG_MAX_MESSAGE_LENGTH expansion := by
    rw [ulog_message, if_neg (by simp [hq])]
  have hmin : min expansion.length (ULOG_MAX_MESSAGE_LENGTH - 1) =
      ULOG_MAX_MESSAGE_LENGTH - 1 := by
    simp only [ULOG_MAX_MESSAGE_LENGTH] at hbig ⊢
    omega
  have hdrop : s.msg.drop (ULOG_MAX_MESSAGE_LENGTH - 1 + 1) = [] := by
    apply List.drop_eq_nil_of_le
    simp only [ULOG_MAX_MESSAGE_LENGTH] at hlen ⊢
    omega
  have hv : vsnprintf s.msg ULOG_MAX_MESSAGE_LENGTH expansion =
      expansion.take (ULOG_MAX_MESSAGE_LENGTH - 1) ++ [NUL] := by
    rw [vsnprintf, if_neg (by simp [ULOG_MAX_MESSAGE_LENGTH]), hmin, hdrop,
      List.append_nil]
  refine ⟨hres.trans hv, ?_⟩
  rw [hres, hv]
  have htake : (expansion.take (ULOG_MAX_MESSAGE_LENGTH - 1)).length =
      ULOG_MAX_MESSAGE_LENGTH - 1 := by
    rw [List.length_take]
    simp only [ULOG_MAX_MESSAGE_LENGTH] at hbig ⊢
    omega
  rw [List.length_append, htake]
  simp [ULOG_MAX_MESSAGE_LENGTH]

/-- Witness for C7: a 200-character expansion is cut to 127 characters plus
the terminator. -/
theorem ulog_message_truncation_witness :
    (ulog_message ulog_init 2 "a.c" 1 (List.replicate 200 'x')).1.msg =
      (List.replicate 200 'x').take (ULOG_MAX_MESSAGE_LENGTH - 1) ++ [NUL] ∧
    (ulog_message ulog_init 2 "a.c" 1 (List.replicate 200 'x')).1.msg.length =
      ULOG_MAX_MESSAGE_LENGTH :=
  ulog_message_truncation ulog_init 2 "a.c" 1 (List.replicate 200 'x') rfl
    (by simp only [ulog_init, List.length_replicate])
    (by simp only [List.length_replicate, ULOG_MAX_MESSAGE_LENGTH]; omega)

/-- C1 is refuted: from the freshly-zeroed state, whose first free slot is
index 0, subscribing a new callback succeeds but occupies slot 5 (the last
free slot), leaving slot 0 free — the scan does not place the callback in
the first free slot. -/
theorem subscribe_first_fit_counterexample :
    ulog_init.subscribers.map subscriber_t.fn =
      [none, none, none, none, none, none] ∧
    (ulog_subscribe ulog_init (some 7) 1).1 = ULOG_ERR_NONE ∧
    (ulog_subscribe ulog_init (some 7) 1).2.1.subscribers.map subscriber_t.fn =
      [none, none, none, none, none, some 7] := by
  refine ⟨rfl, rfl, rfl⟩

/-- C1 (amended): for a non-null callback occupying no slot, when a free
slot exists, `ulog_subscribe` occupies the last free slot in scan order (the
highest-indexed free slot) and returns success, leaving all other slots
unchanged. -/
theorem ulog_subscribe_last_free (s : UlogState) (c : Callback) (th : Nat)
    (hnew : ∀ sub ∈ s.subscribers, sub.fn ≠ some c)
    (hfree : ∃ sub ∈ s.subscribers, sub.fn = none) :
    ∃ j, ∃ hj : j < s.subscribers.length,
      (s.subscribers.get ⟨j, hj⟩).fn = none ∧
      (∀ k, (hk : k < s.subscribers.length) → j < k →
        (s.subscribers.get ⟨k, hk⟩).fn ≠ none) ∧
      ulog_subscribe s (some c) th =
        (ULOG_ERR_NONE,
         { s with subscribers := s.subscribers.set j { fn := some c, threshold := th } },
         lock s true ++ lock s false) := by
  rcases hscan : subscribeScan (some c) th 0 none s.subscribers with ⟨o, a⟩
  cases o with
  | some subs2 =>
    obtain ⟨k, hk, hget, _, _⟩ :=
      subscribeScan_some (some c) th s.subscribers 0 none subs2 a hscan
    exact absurd hget (hnew _ (List.get_mem s.subscribers k hk))
  | none =>
    obtain ⟨_, hlast⟩ := subscribeScan_none (some c) th s.subscribers 0 none a hscan
    obtain ⟨j, hj⟩ := lastFreeFrom_of_free s.subscribers 0 none hfree
    rw [hj] at hlast
    subst hlast
    rcases lastFreeFrom_spec s.subscribers 0 none j hj with
      ⟨p, hp, hjp, hfree2, hocc⟩ | ⟨habs, _⟩
    · have hjp2 : j = p := by omega
      subst hjp2
      refine ⟨j, hp, hfree2, hocc, ?_⟩
      rw [ulog_subscribe, hscan]
    · exact absurd habs (by simp)

/-- Witness for C1 (amended): in a state with free slots 1, 3, 4, a new
callback lands in slot 4. -/
theorem ulog_subscribe_last_free_witness :
    ∃ j, ∃ hj : j < sampleState.subscribers.length,
      (sampleState.subscribers.get ⟨j, hj⟩).fn = none ∧
      (∀ k, (hk : k < sampleState.subscribers.length) → j < k →
        (sampleState.subscribers.get ⟨k, hk⟩).fn ≠ none) ∧
      ulog_subscribe sampleState (some 9) 3 =
        (ULOG_ERR_NONE,
         { sampleState with subscribers := (sampleState.subscribers.set j
             (subscriber_t.mk (some 9) 3)) },
         lock sampleState true ++ lock sampleState false) :=
  ulog_subscribe_last_free sampleState 9 3 (by decide) (by decide)

/-- C5: unsubscribing a non-null callback that occupies a slot clears the
`fn` field of its (first) slot, returns success, and leaves every other slot
and the rest of the state unchanged; unsubscribing a non-null callback that
occupies no slot returns `ULOG_ERR_NOT_SUBSCRIBED` and changes nothing. -/
theorem ulog_unsubscribe_spec (s : UlogState) (c : Callback) :
    ((∃ i, ∃ hi : i < s.subscribers.length,
        (s.subscribers.get ⟨i, hi⟩).fn = some c) →
      ∃ k, ∃ hk : k < s.subscribers.length,
        (s.subscribers.get ⟨k, hk⟩).fn = some c ∧
        (∀ m, (hm : m < s.subscribers.length) → m < k →
          (s.subscribers.get ⟨m, hm⟩).fn ≠ some c) ∧
        ulog_unsubscribe s (some c) =
          (ULOG_ERR_NONE,
           { s with subscribers := (s.subscribers.set k
               (subscriber_t.mk none (s.subscribers.get ⟨k, hk⟩).threshold)) },
           lock s true ++ lock s false)) ∧
    ((∀ sub ∈ s.subscribers, sub.fn ≠ some c) →
      ulog_unsubscribe s (some c) =
        (ULOG_ERR_NOT_SUBSCRIBED, s, lock s true ++ lock s false)) := by
  constructor
  · intro hmem
    rcases hscan : unsubscribeScan (some c) s.subscribers with _ | subs2
    · obtain ⟨i, hi, hget⟩ := hmem
      exact absurd hget
        (unsubscribeScan_none (some c) s.subscribers hscan _
          (List.get_mem s.subscribers i hi))
    · obtain ⟨k, hk, hget, hpre, hset⟩ :=
        unsubscribeScan_some (some c) s.subscribers subs2 hscan
      refine ⟨k, hk, hget, hpre, ?_⟩
      rw [ulog_unsubscribe, hscan, hset]
  · intro hnone
    rcases hscan : unsubscribeScan (some c) s.subscribers with _ | subs2
    · rw [ulog_unsubscribe, hscan]
    · obtain ⟨k, hk, hget, _, _⟩ :=
        unsubscribeScan_some (some c) s.subscribers subs2 hscan
      exact absurd hget (hnone _ (List.get_mem s.subscribers k hk))

/-- Witness for C5: removing an occupant of the sample state, and failing to
remove a callback that is not subscribed. -/
theorem ulog_unsubscribe_spec_witness :
    (∃ k, ∃ hk : k < sampleState.subscribers.length,
      (sampleState.subscribers.get ⟨k, hk⟩).fn = some 2 ∧
      (∀ m, (hm : m < sampleState.subscribers.length) → m < k →
        (sampleState.subscribers.get ⟨m, hm⟩).fn ≠ some 2) ∧
      ulog_unsubscribe sampleState (some 2) =
        (ULOG_ERR_NONE,
         { sampleState with subscribers := (sampleState.subscribers.set k
             (subscriber_t.mk none (sampleState.subscribers.get ⟨k, hk⟩).threshold)) },
         lock sampleState true ++ lock sampleState false)) ∧
    ulog_unsubscribe sampleState (some 42) =
      (ULOG_ERR_NOT_SUBSCRIBED, sampleState,
       lock sampleState true ++ lock sampleState false) :=
  ⟨(ulog_unsubscribe_spec sampleState 2).1 ⟨2, by decide, by decide⟩,
   (ulog_unsubscribe_spec sampleState 42).2 (by decide)⟩

/-- C10: unsubscribing the null identity leaves the whole state unchanged in
every state; it returns success exactly when some slot is empty (the null
identity matches the empty-slot sentinel) and `ULOG_ERR_NOT_SUBSCRIBED`
exactly when all slots are occupied. -/
theorem ulog_unsubscribe_null_noop (s : UlogState) :
    (ulog_unsubscribe s none).2.1 = s ∧
    ((ulog_unsubscribe s none).1 = ULOG_ERR_NONE ↔
      ∃ sub ∈ s.subscribers, sub.fn = none) ∧
    ((ulog_unsubscribe s none).1 = ULOG_ERR_NOT_SUBSCRIBED ↔
      ∀ sub ∈ s.subscribers, sub.fn ≠ none) := by
  rcases hscan : unsubscribeScan (none : Option Callback) s.subscribers with _ | subs2
  · have hall := unsubscribeScan_none none s.subscribers hscan
    rw [ulog_unsubscribe, hscan]
    refine ⟨rfl, ?_, ?_⟩
    · simp only [iff_iff_implies_and_implies]
      constructor
      · intro h; exact absurd h (by simp)
      · intro ⟨x, hx, hxf⟩; exact absurd hxf (hall x hx)
    · simp only [iff_iff_implies_and_implies]
      exact ⟨fun _ => hall, fun _ => trivial⟩
  · obtain ⟨k, hk, hget, _, hset⟩ :=
      unsubscribeScan_some none s.subscribers subs2 hscan
    have hslot : subscriber_t.mk none (s.subscribers.get ⟨k, hk⟩).threshold =
        s.subscribers.get ⟨k, hk⟩ := by
      rcases hg : s.subscribers.get ⟨k, hk⟩ with ⟨f, t⟩
      rw [hg] at hget
      simp only at hget
      rw [hget]
    have hsubs : subs2 = s.subscribers := by
      rw [hset, hslot, set_get_self]
    rw [ulog_unsubscribe, hscan, hsubs]
    refine ⟨rfl, ?_, ?_⟩
    · simp only [iff_iff_implies_and_implies]
      refine ⟨fun _ => ⟨s.subscribers.get ⟨k, hk⟩, List.get_mem s.subscribers k hk, hget⟩,
        fun _ => trivial⟩
    · simp only [iff_iff_implies_and_implies]
      constructor
      · intro h; exact absurd h (by simp)
      · intro h; exact absurd hget (h _ (List.get_mem s.subscribers k hk))

/-- C9: subscribing the null identity never registers an entry and never
corrupts occupied entries — the callback layout is unchanged and every
occupied slot keeps its exact contents; the call returns success when some
slot is empty (the null identity matches the empty-slot sentinel) and
`ULOG_ERR_SUBSCRIBERS_EXCEEDED` (with the state unchanged) when the
registry is full. -/
theorem ulog_subscribe_null_safe (s : UlogState) (th : Nat) :
    ((∃ sub ∈ s.subscribers, sub.fn = none) →
      (ulog_subscribe s none th).1 = ULOG_ERR_NONE) ∧
    ((∀ sub ∈ s.subscribers, sub.fn ≠ none) →
      (ulog_subscribe s none th).1 = ULOG_ERR_SUBSCRIBERS_EXCEEDED ∧
      (ulog_subscribe s none th).2.1 = s) ∧
    (ulog_subscribe s none th).2.1.subscribers.map subscriber_t.fn =
      s.subscribers.map subscriber_t.fn ∧
    ∀ i, (hi : i < s.subscribers.length) →
      (s.subscribers.get ⟨i, hi⟩).fn ≠ none →
      (ulog_subscribe s none th).2.1.subscribers[i]? = s.subscribers[i]? := by
  rcases hscan : subscribeScan (none : Option Callback) th 0 none s.subscribers with ⟨o, a⟩
  cases o with
  | some subs2 =>
    obtain ⟨k, hk, hget, _, hset⟩ :=
      subscribeScan_some none th s.subscribers 0 none subs2 a hscan
    have hres : (ulog_subscribe s none th).2.1.subscribers = subs2 := by
      rw [ulog_subscribe, hscan]
    have herr : (ulog_subscribe s none th).1 = ULOG_ERR_NONE := by
      rw [ulog_subscribe, hscan]
    refine ⟨fun _ => herr, ?_, ?_, ?_⟩
    · intro hfull
      exact absurd hget (hfull _ (List.get_mem s.subscribers k hk))
    · rw [hres, hset, List.map_set,
        show (subscriber_t.mk none th).fn = none from rfl]
      have hk2 : k < (s.subscribers.map subscriber_t.fn).length := by simpa using hk
      have hmapk : (s.subscribers.map subscriber_t.fn).get ⟨k, hk2⟩ = none := by
        simpa using hget
      conv_lhs => rw [← hmapk]
      exact set_get_self _ k hk2
    · intro i hi hocc
      have hik : i ≠ k := by
        intro hik
        subst hik
        exact hocc hget
      rw [hres, hset, List.getElem?_set_ne (Ne.symm hik)]
  | none =>
    obtain ⟨hall, hlast⟩ := subscribeScan_none none th s.subscribers 0 none a hscan
    have hfull : ∀ sub ∈ s.subscribers, sub.fn ≠ none := hall
    rw [lastFreeFrom_of_full s.subscribers 0 hfull] at hlast
    subst hlast
    have hres : (ulog_subscribe s none th).2.1 = s := by
      rw [ulog_subscribe, hscan]
    have herr : (ulog_subscribe s none th).1 = ULOG_ERR_SUBSCRIBERS_EXCEEDED := by
      rw [ulog_subscribe, hscan]
    refine ⟨?_, fun _ => ⟨herr, hres⟩, by rw [hres], fun i hi _ => by rw [hres]⟩
    intro ⟨x, hx, hxf⟩
    exact absurd hxf (hall x hx)

/-- Witness for C9: the null identity on a state with free slots and on a
full state. -/
theorem ulog_subscribe_null_safe_witness :
    (ulog_subscribe sampleState none 3).1 = ULOG_ERR_NONE ∧
    ((ulog_subscribe sampleFullState none 3).1 = ULOG_ERR_SUBSCRIBERS_EXCEEDED ∧
      (ulog_subscribe sampleFullState none 3).2.1 = sampleFullState) ∧
    (ulog_subscribe sampleState none 3).2.1.subscribers.map subscriber_t.fn =
      sampleState.subscribers.map subscriber_t.fn :=
  ⟨(ulog_subscribe_null_safe sampleState 3).1 (by decide),
   (ulog_subscribe_null_safe sampleFullState 3).2.1 (by decide),
   (ulog_subscribe_null_safe sampleState 3).2.2.1⟩

/-- C3: starting from the freshly-zeroed state, every sequence of
subscribe/unsubscribe operations preserves the invariant that at most one
occupied slot exists per distinct non-null callback; and subscribing an
already-subscribed callback returns success, updates its threshold in its
slot in place, and leaves the callback layout unchanged (no second
entry). -/
theorem registry_unique_upsert :
    (∀ ops : List Op, UniqueOccupied (runOps ops).subscribers) ∧
    (∀ (s : UlogState) (c : Callback) (th : Nat),
      (∃ i, ∃ hi : i < s.subscribers.length,
        (s.subscribers.get ⟨i, hi⟩).fn = some c) →
      (ulog_subscribe s (some c) th).1 = ULOG_ERR_NONE ∧
      (ulog_subscribe s (some c) th).2.1.subscribers.map subscriber_t.fn =
        s.subscribers.map subscriber_t.fn ∧
      ∃ k, ∃ hk : k < s.subscribers.length,
        (s.subscribers.get ⟨k, hk⟩).fn = some c ∧
        (ulog_subscribe s (some c) th).2.1.subscribers =
          s.subscribers.set k (subscriber_t.mk (some c) th)) := by
  constructor
  · intro ops
    exact uniqueOccupied_foldl ops ulog_init uniqueOccupied_init
  · intro s c th hmem
    rcases hscan : subscribeScan (some c) th 0 none s.subscribers with ⟨o, a⟩
    cases o with
    | none =>
      obtain ⟨hall, _⟩ := subscribeScan_none (some c) th s.subscribers 0 none a hscan
      obtain ⟨i, hi, hget⟩ := hmem
      exact absurd hget (hall _ (List.get_mem s.subscribers i hi))
    | some subs2 =>
      obtain ⟨k, hk, hget, _, hset⟩ :=
        subscribeScan_some (some c) th s.subscribers 0 none subs2 a hscan
      have hres : (ulog_subscribe s (some c) th).2.1.subscribers = subs2 := by
        rw [ulog_subscribe, hscan]
      have herr : (ulog_subscribe s (some c) th).1 = ULOG_ERR_NONE := by
        rw [ulog_subscribe, hscan]
      refine ⟨herr, ?_, k, hk, hget, by rw [hres, hset]⟩
      rw [hres, hset, List.map_set,
        show (subscriber_t.mk (some c) th).fn = some c from rfl]
      have hk2 : k < (s.subscribers.map subscriber_t.fn).length := by simpa using hk
      have hmapk : (s.subscribers.map subscriber_t.fn).get ⟨k, hk2⟩ = some c := by
        simpa using hget
      conv_lhs => rw [← hmapk]
      exact set_get_self _ k hk2

/-- Witness for C3: re-subscribing callback 1 of the sample state with a new
threshold. -/
theorem registry_unique_upsert_witness :
    UniqueOccupied (runOps [Op.sub (some 1) 2, Op.unsub (some 1)]).subscribers ∧
    ((ulog_subscribe sampleState (some 1) 5).1 = ULOG_ERR_NONE ∧
      (ulog_subscribe sampleState (some 1) 5).2.1.subscribers.map subscriber_t.fn =
        sampleState.subscribers.map subscriber_t.fn ∧
      ∃ k, ∃ hk : k < sampleState.subscribers.length,
        (sampleState.subscribers.get ⟨k, hk⟩).fn = some 1 ∧
        (ulog_subscribe sampleState (some 1) 5).2.1.subscribers =
          sampleState.subscribers.set k (subscriber_t.mk (some 1) 5)) :=
  ⟨registry_unique_upsert.1 [Op.sub (some 1) 2, Op.unsub (some 1)],
   registry_unique_upsert.2 sampleState 1 5 ⟨0, by decide, by decide⟩⟩

/-- Witness for C10 at two concrete states: one with a free slot, one
full. -/
theorem ulog_unsubscribe_null_noop_witness :
    ((ulog_unsubscribe sampleState none).2.1 = sampleState ∧
      ((ulog_unsubscribe sampleState none).1 = ULOG_ERR_NONE ↔
        ∃ sub ∈ sampleState.subscribers, sub.fn = none) ∧
      ((ulog_unsubscribe sampleState none).1 = ULOG_ERR_NOT_SUBSCRIBED ↔
        ∀ sub ∈ sampleState.subscribers, sub.fn ≠ none)) ∧
    ((ulog_unsubscribe sampleFullState none).2.1 = sampleFullState ∧
      ((ulog_unsubscribe sampleFullState none).1 = ULOG_ERR_NONE ↔
        ∃ sub ∈ sampleFullState.subscribers, sub.fn = none) ∧
      ((ulog_unsubscribe sampleFullState none).1 = ULOG_ERR_NOT_SUBSCRIBED ↔
        ∀ sub ∈ sampleFullState.subscribers, sub.fn ≠ none)) :=
  ⟨ulog_unsubscribe_null_noop sampleState,
   ulog_unsubscribe_null_noop sampleFullState⟩

/-- C2: a non-quiet log call's invocation events are exactly one per
occupied slot whose threshold is at most the severity, in slot order, all
passing the same freshly-formatted shared buffer; and, per callback, the
number of invocations equals the number of its qualifying slots (so each
subscribed callback is invoked exactly once when the registry holds it in
one slot). -/
theorem ulog_message_dispatch (s : UlogState) (severity : Nat) (file : String)
    (line : Int) (expansion : List Char) (hq : s.quite = false) :
    ((ulog_message s severity file line expansion).2.filter isInvoke =
      (s.subscribers.filter
          (fun sub => sub.fn.isSome && decide (sub.threshold ≤ severity))).map
        (fun sub => Event.invoke (sub.fn.getD 0) severity file line
          (ulog_message s severity file line expansion).1.msg)) ∧
    ∀ c : Callback,
      (invokedCallbacks (ulog_message s severity file line expansion).2).count c =
        s.subscribers.countP
          (fun sub => decide (sub.fn = some c) && decide (sub.threshold ≤ severity)) := by
  have htr : (ulog_message s severity file line expansion).2 =
      lock s true ++
        dispatchLoop severity file line
          (vsnprintf s.msg ULOG_MAX_MESSAGE_LENGTH expansion) s.subscribers ++
        lock s false := by
    rw [ulog_message_not_quiet s severity file line expansion hq]
  have hmsg : (ulog_message s severity file line expansion).1.msg =
      vsnprintf s.msg ULOG_MAX_MESSAGE_LENGTH expansion := by
    rw [ulog_message_not_quiet s severity file line expansion hq]
  constructor
  · rw [htr, hmsg, List.filter_append, List.filter_append, filter_isInvoke_lock,
      filter_isInvoke_lock, filter_isInvoke_dispatchLoop, List.append_nil,
      List.nil_append]
    exact dispatchLoop_eq severity file line _ s.subscribers
  · intro c
    rw [htr, invokedCallbacks_append, invokedCallbacks_append, invokedCallbacks_lock,
      invokedCallbacks_lock, List.append_nil, List.nil_append]
    exact count_dispatchLoop severity file line _ c s.subscribers

/-- Witness for C2 at a concrete state (occupants at slots 0, 2, 5 with
thresholds 2, 5, 0; severity 2 qualifies slots 0 and 5). -/
theorem ulog_message_dispatch_witness :
    ((ulog_message sampleState 2 "f.c" 7 ['o', 'k']).2.filter isInvoke =
      (sampleState.subscribers.filter
          (fun sub => sub.fn.isSome && decide (sub.threshold ≤ 2))).map
        (fun sub => Event.invoke (sub.fn.getD 0) 2 "f.c" 7
          (ulog_message sampleState 2 "f.c" 7 ['o', 'k']).1.msg)) ∧
    ∀ c : Callback,
      (invokedCallbacks (ulog_message sampleState 2 "f.c" 7 ['o', 'k']).2).count c =
        sampleState.subscribers.countP
          (fun sub => decide (sub.fn = some c) && decide (sub.threshold ≤ 2)) :=
  ulog_message_dispatch sampleState 2 "f.c" 7 ['o', 'k'] rfl

/-- C8: with a hook installed, each subscribe, unsubscribe and non-quiet log
call emits the hook call with `true` exactly once and first, the hook call
with `false` exactly once and last, enclosing all subscriber invocations;
with no hook installed, no operation emits any hook call. -/
theorem ulog_lock_bracketing (s : UlogState) (fn : Option Callback) (th : Nat)
    (severity : Nat) (file : String) (line : Int) (expansion : List Char) :
    ((∃ h0, s.lock_fn = some h0) →
      (ulog_subscribe s fn th).2.2 = [Event.hook true, Event.hook false] ∧
      (ulog_unsubscribe s fn).2.2 = [Event.hook true, Event.hook false] ∧
      (s.quite = false →
        ∃ mid, (ulog_message s severity file line expansion).2 =
          Event.hook true :: (mid ++ [Event.hook false]) ∧
          ∀ e ∈ mid, isHook e = false)) ∧
    (s.lock_fn = none →
      (ulog_subscribe s fn th).2.2 = [] ∧
      (ulog_unsubscribe s fn).2.2 = [] ∧
      ∀ e ∈ (ulog_message s severity file line expansion).2, isHook e = false) := by
  constructor
  · intro ⟨h0, hh⟩
    have hl1 := lock_eq_hook s true h0 hh
    have hl2 := lock_eq_hook s false h0 hh
    refine ⟨?_, ?_, ?_⟩
    · rw [ulog_subscribe_trace, hl1, hl2]; rfl
    · rw [ulog_unsubscribe_trace, hl1, hl2]; rfl
    · intro hq
      have htr : (ulog_message s severity file line expansion).2 =
          lock s true ++
            dispatchLoop severity file line
              (vsnprintf s.msg ULOG_MAX_MESSAGE_LENGTH expansion) s.subscribers ++
            lock s false := by
        rw [ulog_message_not_quiet s severity file line expansion hq]
      refine ⟨dispatchLoop severity file line
        (vsnprintf s.msg ULOG_MAX_MESSAGE_LENGTH expansion) s.subscribers,
        ?_, dispatchLoop_no_hook severity file line _ s.subscribers⟩
      rw [htr, hl1, hl2]
      simp
  · intro hh
    have hl1 := lock_eq_nil s true hh
    have hl2 := lock_eq_nil s false hh
    refine ⟨?_, ?_, ?_⟩
    · rw [ulog_subscribe_trace, hl1, hl2]; rfl
    · rw [ulog_unsubscribe_trace, hl1, hl2]; rfl
    · by_cases hq : s.quite
      · rw [ulog_message, if_pos hq]
        intro e he
        exact absurd he (List.not_mem_nil e)
      · have htr : (ulog_message s severity file line expansion).2 =
            lock s true ++
              dispatchLoop severity file line
                (vsnprintf s.msg ULOG_MAX_MESSAGE_LENGTH expansion) s.subscribers ++
              lock s false := by
          rw [ulog_message_not_quiet s severity file line expansion
            (by simpa using hq)]
        rw [htr, hl1, hl2, List.nil_append, List.append_nil]
        exact dispatchLoop_no_hook severity file line _ s.subscribers

/-- Witness for C8: the hook-installed sample state brackets every
operation; the hook-free full state emits no hook calls. -/
theorem ulog_lock_bracketing_witness :
    (ulog_subscribe sampleState (some 9) 1).2.2 =
      [Event.hook true, Event.hook false] ∧
    (∃ mid, (ulog_message sampleState 3 "m.c" 4 ['z']).2 =
      Event.hook true :: (mid ++ [Event.hook false]) ∧
      ∀ e ∈ mid, isHook e = false) ∧
    (ulog_subscribe sampleFullState (some 9) 1).2.2 = [] ∧
    ∀ e ∈ (ulog_message sampleFullState 3 "m.c" 4 ['z']).2, isHook e = false :=
  ⟨((ulog_lock_bracketing sampleState (some 9) 1 3 "m.c" 4 ['z']).1 ⟨0, rfl⟩).1,
   ((ulog_lock_bracketing sampleState (some 9) 1 3 "m.c" 4 ['z']).1 ⟨0, rfl⟩).2.2 rfl,
   ((ulog_lock_bracketing sampleFullState (some 9) 1 3 "m.c" 4 ['z']).2 rfl).1,
   ((ulog_lock_bracketing sampleFullState (some 9) 1 3 "m.c" 4 ['z']).2 rfl).2.2⟩

end Ulog
